import Mathlib

/-!
Verification of the kak-tree-sitter core: the request protocol, the
byte-to-line/column position mapper, the highlight-event translator, the
indent-guideline compactor, and the query store.  Each definition is a
shallow embedding of the corresponding Rust item; theorems settle the
specification claims against those definitions.
-/

namespace KakTreeSitter

/-! ## Indent guidelines (src/kak-tree-sitter/src/tree_sitter/indent_guidelines.rs) -/

/-- Embedding of `IndentGuideline`: a 1-based line together with the 0-based
columns that need a guide mark on that line. -/
structure IndentGuideline where
  line : Nat
  cols : List Nat
  deriving Repr, DecidableEq

/-- Embedding of `IndentGuidelines`: the ordered per-line guideline records. -/
structure IndentGuidelines where
  lines : List IndentGuideline
  deriving Repr, DecidableEq

/-- Embedding of the fixed decoration glyph `INDENT_GUIDELINE_CHAR`
(U+2502, box drawings light vertical). -/
def INDENT_GUIDELINE_CHAR : Char := '│'

/-- Embedding of `IndentGuidelines::to_kak_replace_hl_str`.  The Rust code
walks consecutive pairs of entries (`zip` with `skip(1)`); for each pair it
writes one token per column of the first entry for every line in
`line1.line..line2.line`, then one token per column of the second entry at the
second entry's own line.  Each `write!` appends
`"<line>.<col>+1|<symbol> "` to the formatter, modelled as a string
accumulator. -/
def IndentGuidelines.to_kak_replace_hl_str (g : IndentGuidelines) (s : String) : String :=
  (g.lines.zip (g.lines.drop 1)).foldl
    (fun acc p =>
      let acc :=
        (List.range' p.1.line (p.2.line - p.1.line)).foldl
          (fun acc l =>
            p.1.cols.foldl
              (fun acc col =>
                acc ++ toString l ++ "." ++ toString col ++ "+1|" ++ s ++ " ")
              acc)
          acc
      p.2.cols.foldl
        (fun acc col =>
          acc ++ toString p.2.line ++ "." ++ toString col ++ "+1|" ++ s ++ " ")
        acc)
    ""

/-- Embedding of `IndentGuidelines::to_kak_replace_replace_ranges_str`
(literal-glyph mode). -/
def IndentGuidelines.to_kak_replace_replace_ranges_str (g : IndentGuidelines) : String :=
  g.to_kak_replace_hl_str (toString INDENT_GUIDELINE_CHAR)

/-- Embedding of `IndentGuidelines::to_kak_ranges_str` (named-face mode). -/
def IndentGuidelines.to_kak_ranges_str (g : IndentGuidelines) : String :=
  g.to_kak_replace_hl_str "ts_indent_guideline"

/-- The (line, column) pairs enumerated for one consecutive pair of guideline
entries: the first entry's columns carried through every line of
`[L1.line, L2.line)`, followed by the second entry's own columns at its own
line. -/
def pairPositions (l1 l2 : IndentGuideline) : List (Nat × Nat) :=
  ((List.range' l1.line (l2.line - l1.line)).flatMap fun l => l1.cols.map (Prod.mk l))
    ++ l2.cols.map (Prod.mk l2.line)

/-- All (line, column) pairs the compactor enumerates, pair walk over
consecutive entries. -/
def enumPositions (g : IndentGuidelines) : List (Nat × Nat) :=
  (g.lines.zip (g.lines.drop 1)).flatMap fun p => pairPositions p.1 p.2

/-- One rendered token at a given (line, column), raw 0-based column after the
dot, exactly as the `write!` in `to_kak_replace_hl_str` formats it. -/
def guidelineToken (line col : Nat) (s : String) : String :=
  toString line ++ "." ++ toString col ++ "+1|" ++ s ++ " "

/-- Render a list of (line, column) pairs one token each, raw 0-based column. -/
def renderTokens : List (Nat × Nat) → String → String
  | [], _ => ""
  | p :: ps, s => guidelineToken p.1 p.2 s ++ renderTokens ps s

/-- Rendering taken from the specification text: the column is converted from
0-based to 1-based, so the numeral after the dot is `col + 1`. -/
def renderTokensOneBased : List (Nat × Nat) → String → String
  | [], _ => ""
  | p :: ps, s => guidelineToken p.1 (p.2 + 1) s ++ renderTokensOneBased ps s

theorem renderTokens_append (ps qs : List (Nat × Nat)) (s : String) :
    renderTokens (ps ++ qs) s = renderTokens ps s ++ renderTokens qs s := by
  induction ps with
  | nil => simp [renderTokens]
  | cons p ps ih => simp [renderTokens, ih, String.append_assoc]

theorem foldl_token_eq (ps : List (Nat × Nat)) (s : String) (acc : String) :
    ps.foldl (fun acc p => acc ++ toString p.1 ++ "." ++ toString p.2 ++ "+1|" ++ s ++ " ") acc
      = acc ++ renderTokens ps s := by
  induction ps generalizing acc with
  | nil => simp [renderTokens]
  | cons p ps ih =>
    rw [List.foldl_cons, ih]
    simp [renderTokens, guidelineToken, String.append_assoc]

theorem foldl_cols_eq (cols : List Nat) (line : Nat) (s : String) (acc : String) :
    cols.foldl (fun acc col => acc ++ toString line ++ "." ++ toString col ++ "+1|" ++ s ++ " ") acc
      = acc ++ renderTokens (cols.map (Prod.mk line)) s := by
  induction cols generalizing acc with
  | nil => simp [renderTokens]
  | cons c cs ih =>
    rw [List.foldl_cons, ih]
    simp [renderTokens, guidelineToken, String.append_assoc]

theorem foldl_lines_eq (ls : List Nat) (cols : List Nat) (s : String) (acc : String) :
    ls.foldl
        (fun acc l =>
          cols.foldl
            (fun acc col => acc ++ toString l ++ "." ++ toString col ++ "+1|" ++ s ++ " ") acc)
        acc
      = acc ++ renderTokens (ls.flatMap fun l => cols.map (Prod.mk l)) s := by
  induction ls generalizing acc with
  | nil => simp [renderTokens]
  | cons l ls ih =>
    rw [List.foldl_cons, ih, foldl_cols_eq]
    simp [List.flatMap_cons, renderTokens_append, String.append_assoc]

/-- The compactor's output is exactly the token rendering of its position
enumeration. -/
theorem to_kak_replace_hl_str_eq (g : IndentGuidelines) (s : String) :
    g.to_kak_replace_hl_str s = renderTokens (enumPositions g) s := by
  unfold IndentGuidelines.to_kak_replace_hl_str enumPositions
  generalize g.lines.zip (g.lines.drop 1) = pairs
  induction pairs using List.reverseRecOn with
  | nil => simp [renderTokens]
  | append_singleton ps p ih =>
    simp only [List.foldl_append, List.foldl_cons, List.foldl_nil, ih,
      List.flatMap_append, List.flatMap_cons, List.flatMap_nil, List.append_nil,
      renderTokens_append, pairPositions]
    rw [foldl_lines_eq, foldl_cols_eq, String.append_assoc]

/-- C1 (amended): each token the compactor emits renders the 0-based column
unchanged after the dot — the token is `"<line>.<col>+1|<symbol> "`, so column
0 renders as `0`, in both the literal-glyph mode and the named-face mode. -/
theorem indent_token_zero_based (g : IndentGuidelines) :
    g.to_kak_replace_replace_ranges_str
        = renderTokens (enumPositions g) (toString INDENT_GUIDELINE_CHAR)
    ∧ g.to_kak_ranges_str = renderTokens (enumPositions g) "ts_indent_guideline" :=
  ⟨to_kak_replace_hl_str_eq g _, to_kak_replace_hl_str_eq g _⟩

/-- C1 counterexample: on the guidelines {2:[0], 5:[0,2]} the named-face mode
emits `"2.0+1|ts_indent_guideline ..."`, with column 0 rendered as `0`, which
differs from the 1-based rendering the claim states. -/
theorem indent_token_zero_based_cex :
    IndentGuidelines.to_kak_ranges_str ⟨[⟨2, [0]⟩, ⟨5, [0, 2]⟩]⟩
        = "2.0+1|ts_indent_guideline 3.0+1|ts_indent_guideline 4.0+1|ts_indent_guideline "
          ++ "5.0+1|ts_indent_guideline 5.2+1|ts_indent_guideline "
    ∧ IndentGuidelines.to_kak_ranges_str ⟨[⟨2, [0]⟩, ⟨5, [0, 2]⟩]⟩
        ≠ renderTokensOneBased (enumPositions ⟨[⟨2, [0]⟩, ⟨5, [0, 2]⟩]⟩)
            "ts_indent_guideline" := by
  constructor
  · rfl
  · decide

/-- C2 (amended): the compactor's output is, for each consecutive pair
(L1, L2), one token per column of L1.cols for every line in
`[L1.line, L2.line)` followed by one token per column of L2.cols at L2's own
line; the example {2:[0], 5:[0,2]} enumerates exactly 5 tokens; a
single-entry sequence emits nothing. -/
theorem indent_pair_walk (g : IndentGuidelines) (s : String) :
    g.to_kak_replace_hl_str s
        = renderTokens
            ((g.lines.zip (g.lines.drop 1)).flatMap fun p => pairPositions p.1 p.2) s
    ∧ (enumPositions ⟨[⟨2, [0]⟩, ⟨5, [0, 2]⟩]⟩).length = 5
    ∧ IndentGuidelines.to_kak_replace_hl_str ⟨[⟨2, [0]⟩]⟩ s = "" :=
  ⟨to_kak_replace_hl_str_eq g s, by decide, rfl⟩

/-- C2 counterexample: a single-entry guideline sequence emits the empty
string, not that entry's own token; and on three entries {2:[0], 4:[1], 6:[2]}
the compactor enumerates 6 positions, not the 5 the claimed enumeration
yields, because the middle entry's own columns are also emitted by the pair in
which it is the second component. -/
theorem indent_single_entry_cex :
    IndentGuidelines.to_kak_ranges_str ⟨[⟨2, [0]⟩]⟩ = ""
    ∧ renderTokens [(2, 0)] "ts_indent_guideline" ≠ ""
    ∧ (enumPositions ⟨[⟨2, [0]⟩, ⟨4, [1]⟩, ⟨6, [2]⟩]⟩).length = 6 := by
  refine ⟨rfl, by decide, by decide⟩

/-! ## Request protocol (src/kak-tree-sitter/src/server/request.rs)

The two request enums carry `#[serde(tag = "type", rename_all = "snake_case")]`:
the derived serializer emits a JSON object whose first member is the `type`
discriminator holding the snake_case variant name, followed by the variant's
fields in declaration order.  All field values in these requests are strings,
optional strings, unsigned integers, or unit-variant enums serialized as
strings, so the serde data model is embedded as a flat JSON object whose
values are scalars. -/

/-- A scalar JSON value as produced by the derived serializers. -/
inductive JVal where
  | null
  | str (s : String)
  | num (n : Nat)
  deriving Repr, DecidableEq

/-- A JSON object: ordered fields with scalar values. -/
abbrev JObj := List (String × JVal)

/-- One escaped character of a JSON string, after serde_json: `"`, `\` and the
control characters below 0x20 are escaped, everything else is copied. -/
def escapeChar (c : Char) : String :=
  if c = '"' then "\\\""
  else if c = '\\' then "\\\\"
  else if c = '\n' then "\\n"
  else if c = '\t' then "\\t"
  else if c = '\r' then "\\r"
  else if c = '\x08' then "\\b"
  else if c = '\x0c' then "\\f"
  else if c.toNat < 0x20 then
    "\\u00"
      ++ String.singleton (Char.ofNat (if c.toNat / 16 < 10 then 48 + c.toNat / 16 else 87 + c.toNat / 16))
      ++ String.singleton (Char.ofNat (if c.toNat % 16 < 10 then 48 + c.toNat % 16 else 87 + c.toNat % 16))
  else String.singleton c

/-- Escape a whole JSON string body. -/
def escapeString (s : String) : String :=
  s.data.foldl (fun acc c => acc ++ escapeChar c) ""

/-- Render one scalar value. -/
def renderVal : JVal → String
  | .null => "null"
  | .str s => "\"" ++ escapeString s ++ "\""
  | .num n => toString n

/-- Render the comma-separated members of an object. -/
def renderFields : JObj → String
  | [] => ""
  | [f] => "\"" ++ escapeString f.1 ++ "\":" ++ renderVal f.2
  | f :: fs => "\"" ++ escapeString f.1 ++ "\":" ++ renderVal f.2 ++ "," ++ renderFields fs

/-- Render a whole object in serde_json's compact form. -/
def renderObj (o : JObj) : String :=
  "\x7b" ++ renderFields o ++ "\x7d"

/-- Embedding of `UnixRequest`: the session-scoped request family. -/
inductive UnixRequest where
  | RegisterSession (name : String) (client : Option String)
  | SessionExit (name : String)
  | Reload
  | Shutdown
  deriving Repr, DecidableEq

/-- Embedding of `UnixRequest::with_session`: adds a session name, replacing
the one already provided if any. -/
def UnixRequest.with_session : UnixRequest → String → UnixRequest
  | .RegisterSession _ client, name => .RegisterSession name client
  | .SessionExit _, name => .SessionExit name
  | r, _ => r

/-- Serialization of an optional string field. -/
def optVal : Option String → JVal
  | none => .null
  | some s => .str s

/-- The derived serializer for `UnixRequest`: `type` tag first, then the
variant's fields in declaration order. -/
def UnixRequest.toJson : UnixRequest → JObj
  | .RegisterSession name client =>
    [("type", .str "register_session"), ("name", .str name), ("client", optVal client)]
  | .SessionExit name => [("type", .str "session_exit"), ("name", .str name)]
  | .Reload => [("type", .str "reload")]
  | .Shutdown => [("type", .str "shutdown")]

/-- The derived deserializer for `UnixRequest`: dispatch on the `type` tag,
then read the variant's fields. -/
def UnixRequest.fromJson (o : JObj) : Option UnixRequest :=
  match o.lookup "type" with
  | some (.str "register_session") =>
    match o.lookup "name", o.lookup "client" with
    | some (.str name), some .null => some (.RegisterSession name none)
    | some (.str name), some (.str c) => some (.RegisterSession name (some c))
    | _, _ => none
  | some (.str "session_exit") =>
    match o.lookup "name" with
    | some (.str name) => some (.SessionExit name)
    | _ => none
  | some (.str "reload") => some .Reload
  | some (.str "shutdown") => some .Shutdown
  | _ => none

/-- Modelled from the spec: `OperationMode` is defined in
src/kakoune/text_objects.rs, which is not among the provided sources; the spec
only names the `mode` field of `TextObjects`.  Modelled as a serde unit-variant
enum serialized as its snake_case tag string. -/
inductive OperationMode where
  | SearchNext
  | SearchPrev
  | Select
  deriving Repr, DecidableEq

/-- Tag string of an `OperationMode`. -/
def OperationMode.tag : OperationMode → String
  | .SearchNext => "search_next"
  | .SearchPrev => "search_prev"
  | .Select => "select"

/-- Inverse of `OperationMode.tag`. -/
def OperationMode.ofTag : String → Option OperationMode
  | "search_next" => some .SearchNext
  | "search_prev" => some .SearchPrev
  | "select" => some .Select
  | _ => none

/-- Modelled from the spec: `nav::Dir` is defined in src/tree_sitter/nav.rs,
which is not among the provided sources; the spec only names the `dir` field
of `Nav`.  Modelled as a serde unit-variant enum serialized as its snake_case
tag string. -/
inductive Dir where
  | Parent
  | FirstChild
  | PrevSibling
  | NextSibling
  deriving Repr, DecidableEq

/-- Tag string of a `Dir`. -/
def Dir.tag : Dir → String
  | .Parent => "parent"
  | .FirstChild => "first_child"
  | .PrevSibling => "prev_sibling"
  | .NextSibling => "next_sibling"

/-- Inverse of `Dir.tag`. -/
def Dir.ofTag : String → Option Dir
  | "parent" => some .Parent
  | "first_child" => some .FirstChild
  | "prev_sibling" => some .PrevSibling
  | "next_sibling" => some .NextSibling
  | _ => none

/-- Embedding of `Request`: the buffer-scoped request family. -/
inductive Request where
  | TryEnableHighlight (lang client : String)
  | Highlight (client buffer lang : String) (timestamp : Nat)
  | TextObjects (client buffer lang pattern selections : String) (mode : OperationMode)
  | Nav (client buffer lang selections : String) (dir : Dir)
  deriving Repr, DecidableEq

/-- The derived serializer for `Request`: `type` tag first, then the variant's
fields in declaration order. -/
def Request.toJson : Request → JObj
  | .TryEnableHighlight lang client =>
    [("type", .str "try_enable_highlight"), ("lang", .str lang), ("client", .str client)]
  | .Highlight client buffer lang timestamp =>
    [("type", .str "highlight"), ("client", .str client), ("buffer", .str buffer),
      ("lang", .str lang), ("timestamp", .num timestamp)]
  | .TextObjects client buffer lang pat selections mode =>
    [("type", .str "text_objects"), ("client", .str client), ("buffer", .str buffer),
      ("lang", .str lang), ("pattern", .str pat), ("selections", .str selections),
      ("mode", .str mode.tag)]
  | .Nav client buffer lang selections dir =>
    [("type", .str "nav"), ("client", .str client), ("buffer", .str buffer),
      ("lang", .str lang), ("selections", .str selections), ("dir", .str dir.tag)]

/-- The derived deserializer for `Request`. -/
def Request.fromJson (o : JObj) : Option Request :=
  match o.lookup "type" with
  | some (.str "try_enable_highlight") =>
    match o.lookup "lang", o.lookup "client" with
    | some (.str lang), some (.str client) => some (.TryEnableHighlight lang client)
    | _, _ => none
  | some (.str "highlight") =>
    match o.lookup "client", o.lookup "buffer", o.lookup "lang", o.lookup "timestamp" with
    | some (.str client), some (.str buffer), some (.str lang), some (.num ts) =>
      some (.Highlight client buffer lang ts)
    | _, _, _, _ => none
  | some (.str "text_objects") =>
    match o.lookup "client", o.lookup "buffer", o.lookup "lang", o.lookup "pattern",
        o.lookup "selections", o.lookup "mode" with
    | some (.str client), some (.str buffer), some (.str lang), some (.str pat),
        some (.str selections), some (.str m) =>
      match OperationMode.ofTag m with
      | some mode => some (.TextObjects client buffer lang pat selections mode)
      | none => none
    | _, _, _, _, _, _ => none
  | some (.str "nav") =>
    match o.lookup "client", o.lookup "buffer", o.lookup "lang", o.lookup "selections",
        o.lookup "dir" with
    | some (.str client), some (.str buffer), some (.str lang), some (.str selections),
        some (.str d) =>
      match Dir.ofTag d with
      | some dir => some (.Nav client buffer lang selections dir)
      | none => none
    | _, _, _, _, _ => none
  | _ => none

/-- C3: serializing `Highlight{client:"client0", buffer:"/tmp/a.rs",
lang:"rust", timestamp:0}` produces exactly the byte string
`{"type":"highlight","client":"client0","buffer":"/tmp/a.rs","lang":"rust","timestamp":0}`:
the `type` discriminator carries the snake_case variant name and the fields
follow, flattened at the same level, in declaration order. -/
theorem highlight_request_serialization :
    renderObj (Request.toJson (.Highlight "client0" "/tmp/a.rs" "rust" 0))
      = "\x7b\"type\":\"highlight\",\"client\":\"client0\",\"buffer\":\"/tmp/a.rs\",\"lang\":\"rust\",\"timestamp\":0\x7d" := by
  rfl

/-- C4: for every value of both request families, serializing and then
deserializing through the serde data model reproduces a value equal to the
original. -/
theorem request_roundtrip :
    (∀ r : UnixRequest, UnixRequest.fromJson (UnixRequest.toJson r) = some r)
    ∧ (∀ r : Request, Request.fromJson (Request.toJson r) = some r) := by
  constructor
  · intro r
    cases r with
    | RegisterSession name client => cases client <;> rfl
    | SessionExit name => rfl
    | Reload => rfl
    | Shutdown => rfl
  · intro r
    cases r with
    | TryEnableHighlight lang client => rfl
    | Highlight client buffer lang timestamp => rfl
    | TextObjects client buffer lang pat selections mode => cases mode <;> rfl
    | Nav client buffer lang selections dir => cases dir <;> rfl

/-- C5: `with_session` rewrites `name` on `RegisterSession` (keeping
`client`) and on `SessionExit`, is the identity on `Reload` and `Shutdown`,
and is idempotent for a fixed name. -/
theorem with_session_spec :
    (∀ (old name : String) (client : Option String),
        (UnixRequest.RegisterSession old client).with_session name
          = UnixRequest.RegisterSession name client)
    ∧ (∀ old name : String,
        (UnixRequest.SessionExit old).with_session name = UnixRequest.SessionExit name)
    ∧ (∀ name : String, UnixRequest.Reload.with_session name = UnixRequest.Reload)
    ∧ (∀ name : String, UnixRequest.Shutdown.with_session name = UnixRequest.Shutdown)
    ∧ (∀ (r : UnixRequest) (name : String),
        (r.with_session name).with_session name = r.with_session name) := by
  refine ⟨fun _ _ _ => rfl, fun _ _ => rfl, fun _ => rfl, fun _ => rfl, ?_⟩
  intro r name
  cases r <;> rfl

/-! ## Highlighting (src/src/highlighting.rs) -/

/-- Embedding of `KakHighlightRange`: one highlight span in 1-based inclusive
line/column coordinates together with its face name. -/
structure KakHighlightRange where
  line_start : Nat
  col_start : Nat
  line_end : Nat
  col_end : Nat
  face : String
  deriving Repr, DecidableEq

/-- Embedding of `ByteLineColMapper`: the forward-only cursor over the
remaining `(byte offset, char)` stream. -/
structure ByteLineColMapper where
  chars : List (Nat × Char)
  byte_idx : Nat
  line : Nat
  col : Nat
  change_line : Bool
  deriving Repr, DecidableEq

/-- Embedding of `str::char_indices`: each character of the string paired with
the byte offset of its first byte. -/
def charIndicesAux : List Char → Nat → List (Nat × Char)
  | [], _ => []
  | c :: cs, i => (i, c) :: charIndicesAux cs (i + c.utf8Size)

/-- Character stream of a string with byte offsets. -/
def charIndices (s : String) : List (Nat × Char) :=
  charIndicesAux s.data 0

/-- Embedding of `ByteLineColMapper::new`: the constructor consumes the first
element of the iterator, then starts at byte 0, line 1, column 1. -/
def ByteLineColMapper.new (cs : List (Nat × Char)) : ByteLineColMapper :=
  { chars := cs.drop 1, byte_idx := 0, line := 1, col := 1, change_line := false }

/-- Loop body of `ByteLineColMapper::advance`, recursing on the remaining
character stream: while the byte index is below the target, consume the next
character; a pending newline first bumps the line and resets the column, then
the column is incremented for the consumed character. -/
def advanceAux (til : Nat) : List (Nat × Char) → Nat → Nat → Nat → Bool → ByteLineColMapper
  | [], byte_idx, line, col, change_line => ⟨[], byte_idx, line, col, change_line⟩
  | (idx, c) :: rest, byte_idx, line, col, change_line =>
    if byte_idx ≥ til then ⟨(idx, c) :: rest, byte_idx, line, col, change_line⟩
    else
      advanceAux til rest idx
        (if change_line then line + 1 else line)
        ((if change_line then 0 else col) + 1)
        (c == '\n')

/-- Embedding of `ByteLineColMapper::advance`. -/
def ByteLineColMapper.advance (m : ByteLineColMapper) (til : Nat) : ByteLineColMapper :=
  advanceAux til m.chars m.byte_idx m.line m.col m.change_line

/-- Embedding of `tree_sitter_highlight::HighlightEvent`; the `end` field of
`Source` is named `stop` because `end` is a Lean keyword. -/
inductive HighlightEvent where
  | Source (start stop : Nat)
  | HighlightStart (idx : Nat)
  | HighlightEnd
  deriving Repr, DecidableEq

/-- Embedding of Rust's `str::replace('.', "_")` applied to a face name. -/
def replaceDot (s : String) : String :=
  ⟨s.data.map fun c => if c = '.' then '_' else c⟩

/-- The mutable local state of `KakHighlightRange::from_iter`: the face stack
(top at the head), the shared forward mapper, and the accumulated ranges. -/
structure TranslationState where
  faces : List String
  mapper : ByteLineColMapper
  kak_hls : List KakHighlightRange
  deriving Repr, DecidableEq

/-- One iteration of the event loop of `KakHighlightRange::from_iter`.
`none` models the panic of the unchecked `hl_names[idx]` lookup on an
out-of-range face-table index.  On a `Source` event with `start == end` the
event is skipped; otherwise the mapper advances to `start` and then to
`end - 1` (machine subtraction, saturating at 0 in this model) and one range
is pushed with the top face of the stack, `"unknown"` if the stack is empty,
dots rewritten to underscores.  `HighlightEnd` pops the stack; `Vec::pop` on
an empty vector is a no-op. -/
def processEvent (hl_names : List String) (st : TranslationState) :
    HighlightEvent → Option TranslationState
  | .Source start stop =>
    if start == stop then some st
    else
      let m1 := st.mapper.advance start
      let m2 := m1.advance (stop - 1)
      let face := st.faces.head?.getD "unknown"
      some { st with
        mapper := m2
        kak_hls := st.kak_hls ++ [⟨m1.line, m1.col, m2.line, m2.col, replaceDot face⟩] }
  | .HighlightStart idx =>
    match hl_names[idx]? with
    | some f => some { st with faces := f :: st.faces }
    | none => none
  | .HighlightEnd => some { st with faces := st.faces.tail }

/-- The event loop of `KakHighlightRange::from_iter`. -/
def processEvents (hl_names : List String) :
    List HighlightEvent → TranslationState → Option TranslationState
  | [], st => some st
  | e :: es, st =>
    match processEvent hl_names st e with
    | some st2 => processEvents hl_names es st2
    | none => none

/-- Embedding of `KakHighlightRange::from_iter`: run the event loop from the
fresh mapper over the source's character stream, empty face stack, no ranges. -/
def KakHighlightRange.from_iter (source : String) (hl_names : List String)
    (events : List HighlightEvent) : Option (List KakHighlightRange) :=
  (processEvents hl_names events
      ⟨[], ByteLineColMapper.new (charIndices source), []⟩).map
    fun st => st.kak_hls

/-- The source string of the `byte_line_col_mapper` test. -/
def mapperExampleSource : String :=
  "const x: &\u0027str = \"Hello, world!\";\nconst y = 3;"

/-- C6: over the test source the fresh mapper is at line 1 column 1;
`advance(4)` reaches line 1 column 5, then `advance(33)` line 1 column 34,
then `advance(34)` line 2 column 1 — crossing the newline bumps the line and
resets the column on the character following it, counting characters. -/
theorem byte_line_col_mapper_example :
    (ByteLineColMapper.new (charIndices mapperExampleSource)).line = 1
    ∧ (ByteLineColMapper.new (charIndices mapperExampleSource)).col = 1
    ∧ ((ByteLineColMapper.new (charIndices mapperExampleSource)).advance 4).line = 1
    ∧ ((ByteLineColMapper.new (charIndices mapperExampleSource)).advance 4).col = 5
    ∧ (((ByteLineColMapper.new (charIndices mapperExampleSource)).advance 4).advance 33).line = 1
    ∧ (((ByteLineColMapper.new (charIndices mapperExampleSource)).advance 4).advance 33).col = 34
    ∧ ((((ByteLineColMapper.new (charIndices mapperExampleSource)).advance 4).advance
          33).advance 34).line = 2
    ∧ ((((ByteLineColMapper.new (charIndices mapperExampleSource)).advance 4).advance
          33).advance 34).col = 1 := by
  decide

/-- Number of `Source` events whose range is non-empty. -/
def sourceCount : List HighlightEvent → Nat
  | [] => 0
  | .Source s e :: es => if s == e then sourceCount es else sourceCount es + 1
  | .HighlightStart _ :: es => sourceCount es
  | .HighlightEnd :: es => sourceCount es

/-- Every `HighlightStart` event carries an index inside the face table. -/
def idxsInBounds (hl_names : List String) : List HighlightEvent → Bool
  | [] => true
  | .HighlightStart idx :: es => decide (idx < hl_names.length) && idxsInBounds hl_names es
  | _ :: es => idxsInBounds hl_names es

/-- A face name free of dots. -/
def hasNoDot (s : String) : Bool :=
  s.data.all fun c => c != '.'

theorem replaceDot_hasNoDot (s : String) : hasNoDot (replaceDot s) = true := by
  unfold hasNoDot replaceDot
  rw [List.all_map]
  refine List.all_eq_true.2 fun c _ => ?_
  by_cases h : c = '.' <;> simp [h]

/-- Running the event loop with in-bounds face indices always succeeds, adds
one range per non-empty `Source` event, and every added range carries a face
with no dot. -/
theorem processEvents_spec (hl_names : List String) :
    ∀ events : List HighlightEvent, idxsInBounds hl_names events = true →
      ∀ st : TranslationState,
        ∃ st', processEvents hl_names events st = some st'
          ∧ st'.kak_hls.length = st.kak_hls.length + sourceCount events
          ∧ ∀ r ∈ st'.kak_hls, r ∈ st.kak_hls ∨ hasNoDot r.face = true := by
  intro events
  induction events with
  | nil =>
    intro _ st
    exact ⟨st, rfl, rfl, fun r hr => Or.inl hr⟩
  | cons e es ih =>
    intro h st
    cases e with
    | Source s ep =>
      have hes : idxsInBounds hl_names es = true := h
      by_cases hse : (s == ep) = true
      · obtain ⟨st', h1, h2, h3⟩ := ih hes st
        refine ⟨st', ?_, ?_, h3⟩
        · simpa [processEvents, processEvent, hse] using h1
        · simpa [sourceCount, hse] using h2
      · set st2 : TranslationState :=
          { st with
            mapper := (st.mapper.advance s).advance (ep - 1)
            kak_hls := st.kak_hls ++
              [⟨(st.mapper.advance s).line, (st.mapper.advance s).col,
                ((st.mapper.advance s).advance (ep - 1)).line,
                ((st.mapper.advance s).advance (ep - 1)).col,
                replaceDot (st.faces.head?.getD "unknown")⟩] } with hst2
        obtain ⟨st', h1, h2, h3⟩ := ih hes st2
        refine ⟨st', ?_, ?_, ?_⟩
        · simpa [processEvents, processEvent, hse, hst2] using h1
        · rw [h2, hst2]
          simp [sourceCount, hse]
          omega
        · intro r hr
          rcases h3 r hr with hmem | hnd
          · rw [hst2] at hmem
            simp only [List.mem_append, List.mem_singleton] at hmem
            rcases hmem with hmem | rfl
            · exact Or.inl hmem
            · exact Or.inr (replaceDot_hasNoDot _)
          · exact Or.inr hnd
    | HighlightStart idx =>
      have hsplit : idx < hl_names.length ∧ idxsInBounds hl_names es = true := by
        simpa [idxsInBounds, Bool.and_eq_true, decide_eq_true_eq] using h
      obtain ⟨hidx, hes⟩ := hsplit
      obtain ⟨st', h1, h2, h3⟩ :=
        ih hes { st with faces := hl_names[idx] :: st.faces }
      refine ⟨st', ?_, ?_, h3⟩
      · simpa [processEvents, processEvent, List.getElem?_eq_getElem hidx] using h1
      · simpa [sourceCount] using h2
    | HighlightEnd =>
      have hes : idxsInBounds hl_names es = true := h
      obtain ⟨st', h1, h2, h3⟩ := ih hes { st with faces := st.faces.tail }
      refine ⟨st', ?_, ?_, h3⟩
      · simpa [processEvents, processEvent] using h1
      · simpa [sourceCount] using h2

/-- C7: with in-bounds face-table indices the translation succeeds, emits
exactly one range per `Source` event with `start != end` (empty ranges are
skipped), and every emitted range's face contains no dot. -/
theorem translator_count_and_faces (source : String) (hl_names : List String)
    (events : List HighlightEvent) (h : idxsInBounds hl_names events = true) :
    (KakHighlightRange.from_iter source hl_names events).map
        (fun l => (l.length, l.all fun r => hasNoDot r.face))
      = some (sourceCount events, true) := by
  obtain ⟨st', h1, h2, h3⟩ :=
    processEvents_spec hl_names events h
      ⟨[], ByteLineColMapper.new (charIndices source), []⟩
  unfold KakHighlightRange.from_iter
  rw [h1]
  have hlen : st'.kak_hls.length = sourceCount events := by simpa using h2
  have hall : (st'.kak_hls.all fun r => hasNoDot r.face) = true := by
    refine List.all_eq_true.2 fun r hr => ?_
    rcases h3 r hr with hmem | hnd
    · simp at hmem
    · exact hnd
  simp [hlen, hall]

/-- C7 witness: a concrete run with two non-empty `Source` events, one empty
one, an unmatched `HighlightEnd`, and a dotted face name. -/
theorem translator_count_and_faces_witness :
    (KakHighlightRange.from_iter "a.b\ncd" ["string.special"]
          [HighlightEvent.HighlightStart 0, HighlightEvent.Source 0 2,
            HighlightEvent.HighlightEnd, HighlightEvent.Source 2 2,
            HighlightEvent.HighlightEnd, HighlightEvent.Source 2 3]).map
        (fun l => (l.length, l.all fun r => hasNoDot r.face))
      = some (2, true) :=
  translator_count_and_faces "a.b\ncd" ["string.special"]
    [HighlightEvent.HighlightStart 0, HighlightEvent.Source 0 2,
      HighlightEvent.HighlightEnd, HighlightEvent.Source 2 2,
      HighlightEvent.HighlightEnd, HighlightEvent.Source 2 3] (by decide)

/-- Well-nested event segments over a face table: empty, a `Source` event
before a balanced tail, or a `HighlightStart` with in-bounds index, a balanced
body, its matching `HighlightEnd`, and a balanced tail. -/
inductive Balanced (hl_names : List String) : List HighlightEvent → Prop where
  | nil : Balanced hl_names []
  | source (s e : Nat) {b : List HighlightEvent} : Balanced hl_names b →
      Balanced hl_names (HighlightEvent.Source s e :: b)
  | wrap {idx : Nat} {b b' : List HighlightEvent} : idx < hl_names.length →
      Balanced hl_names b → Balanced hl_names b' →
      Balanced hl_names (HighlightEvent.HighlightStart idx :: b
        ++ HighlightEvent.HighlightEnd :: b')

theorem processEvents_append (hl_names : List String) (xs ys : List HighlightEvent)
    (st : TranslationState) :
    processEvents hl_names (xs ++ ys) st
      = (processEvents hl_names xs st).bind (processEvents hl_names ys) := by
  induction xs generalizing st with
  | nil => rfl
  | cons e es ih =>
    cases hpe : processEvent hl_names st e with
    | none => simp [processEvents, hpe]
    | some st2 => simp [processEvents, hpe, ih]

theorem replaceDot_unknown : replaceDot "unknown" = "unknown" := by decide

/-- Processing a balanced event segment restores the face stack to what it
was before the segment. -/
theorem balanced_faces (hl_names : List String) {b : List HighlightEvent}
    (hb : Balanced hl_names b) :
    ∀ st : TranslationState, ∃ st', processEvents hl_names b st = some st'
      ∧ st'.faces = st.faces := by
  induction hb with
  | nil => exact fun st => ⟨st, rfl, rfl⟩
  | source s e hb ih =>
    intro st
    by_cases hse : (s == e) = true
    · obtain ⟨st', h1, h2⟩ := ih st
      exact ⟨st', by simpa [processEvents, processEvent, hse] using h1, h2⟩
    · obtain ⟨st', h1, h2⟩ := ih
        { st with
          mapper := (st.mapper.advance s).advance (e - 1)
          kak_hls := st.kak_hls ++
            [⟨(st.mapper.advance s).line, (st.mapper.advance s).col,
              ((st.mapper.advance s).advance (e - 1)).line,
              ((st.mapper.advance s).advance (e - 1)).col,
              replaceDot (st.faces.head?.getD "unknown")⟩] }
      exact ⟨st', by simpa [processEvents, processEvent, hse] using h1, h2⟩
  | wrap hidx hb hb' ih ih' =>
    intro st
    rename_i idx b b'
    obtain ⟨st3, h3, hf3⟩ := ih { st with faces := hl_names[idx] :: st.faces }
    obtain ⟨st5, h5, hf5⟩ := ih' { st3 with faces := st3.faces.tail }
    refine ⟨st5, ?_, ?_⟩
    · show processEvents hl_names
        (HighlightEvent.HighlightStart idx :: (b ++ HighlightEvent.HighlightEnd :: b')) st
          = some st5
      simp only [processEvents, processEvent, List.getElem?_eq_getElem hidx]
      rw [processEvents_append, h3]
      simpa [processEvents, processEvent] using h5
    · simp [hf5, hf3]

/-- C8: the face stack obeys LIFO discipline — a `HighlightStart` with an
in-bounds index followed by a balanced body and its matching `HighlightEnd`
leaves the face stack exactly as it was before, so subsequent `Source` events
resolve against the restored face; and a `Source` event processed on an empty
stack is assigned the fallback face `"unknown"`. -/
theorem face_stack_discipline (hl_names : List String) (idx : Nat)
    (b : List HighlightEvent) (st : TranslationState)
    (hidx : idx < hl_names.length) (hb : Balanced hl_names b) :
    (processEvents hl_names
          (HighlightEvent.HighlightStart idx :: b ++ [HighlightEvent.HighlightEnd]) st).map
        (fun s => s.faces) = some st.faces
    ∧ (∀ (f : String) (fs : List String) (m : ByteLineColMapper)
          (acc : List KakHighlightRange) (s e : Nat), s ≠ e →
        processEvents hl_names [HighlightEvent.Source s e] ⟨f :: fs, m, acc⟩
          = some ⟨f :: fs, (m.advance s).advance (e - 1),
              acc ++ [⟨(m.advance s).line, (m.advance s).col,
                ((m.advance s).advance (e - 1)).line,
                ((m.advance s).advance (e - 1)).col, replaceDot f⟩]⟩)
    ∧ ∀ (m : ByteLineColMapper) (acc : List KakHighlightRange) (s e : Nat), s ≠ e →
        processEvents hl_names [HighlightEvent.Source s e] ⟨[], m, acc⟩
          = some ⟨[], (m.advance s).advance (e - 1),
              acc ++ [⟨(m.advance s).line, (m.advance s).col,
                ((m.advance s).advance (e - 1)).line,
                ((m.advance s).advance (e - 1)).col, "unknown"⟩]⟩ := by
  refine ⟨?_, ?_, ?_⟩
  · have hw : Balanced hl_names
        (HighlightEvent.HighlightStart idx :: b ++ [HighlightEvent.HighlightEnd]) := by
      simpa using Balanced.wrap hidx hb Balanced.nil
    obtain ⟨st', h1, h2⟩ := balanced_faces hl_names hw st
    rw [h1]
    simp [h2]
  · intro f fs m acc s e hse
    have hse2 : (s == e) = false := by simpa using hse
    simp [processEvents, processEvent, hse2]
  · intro m acc s e hse
    have hse2 : (s == e) = false := by simpa using hse
    simp [processEvents, processEvent, hse2, replaceDot_unknown]

/-- C8 witness: a push immediately popped restores the empty stack, a
`Source` event resolves with the top of the stack (dots rewritten), and a
`Source` event on the empty stack gets the `"unknown"` face. -/
theorem face_stack_discipline_witness :
    (processEvents ["kw"] [HighlightEvent.HighlightStart 0, HighlightEvent.HighlightEnd]
          ⟨[], ByteLineColMapper.new (charIndices "ab"), []⟩).map (fun s => s.faces)
        = some []
    ∧ processEvents ["kw"] [HighlightEvent.Source 0 1]
          ⟨["kw.face"], ByteLineColMapper.new (charIndices "ab"), []⟩
        = some ⟨["kw.face"], ((ByteLineColMapper.new (charIndices "ab")).advance 0).advance 0,
            [⟨((ByteLineColMapper.new (charIndices "ab")).advance 0).line,
              ((ByteLineColMapper.new (charIndices "ab")).advance 0).col,
              (((ByteLineColMapper.new (charIndices "ab")).advance 0).advance 0).line,
              (((ByteLineColMapper.new (charIndices "ab")).advance 0).advance 0).col,
              replaceDot "kw.face"⟩]⟩
    ∧ processEvents ["kw"] [HighlightEvent.Source 0 1]
          ⟨[], ByteLineColMapper.new (charIndices "ab"), []⟩
        = some ⟨[], ((ByteLineColMapper.new (charIndices "ab")).advance 0).advance 0,
            [⟨((ByteLineColMapper.new (charIndices "ab")).advance 0).line,
              ((ByteLineColMapper.new (charIndices "ab")).advance 0).col,
              (((ByteLineColMapper.new (charIndices "ab")).advance 0).advance 0).line,
              (((ByteLineColMapper.new (charIndices "ab")).advance 0).advance 0).col,
              "unknown"⟩]⟩ := by
  refine ⟨?_, ?_, ?_⟩
  · exact (face_stack_discipline ["kw"] 0 []
      ⟨[], ByteLineColMapper.new (charIndices "ab"), []⟩ (by decide) Balanced.nil).1
  · exact (face_stack_discipline ["kw"] 0 []
      ⟨[], ByteLineColMapper.new (charIndices "ab"), []⟩ (by decide) Balanced.nil).2.1
      "kw.face" [] (ByteLineColMapper.new (charIndices "ab")) [] 0 1 (by decide)
  · exact (face_stack_discipline ["kw"] 0 []
      ⟨[], ByteLineColMapper.new (charIndices "ab"), []⟩ (by decide) Balanced.nil).2.2
      (ByteLineColMapper.new (charIndices "ab")) [] 0 1 (by decide)

/-- C9: with every `HighlightStart` index inside the face table the event
loop always completes, even when `HighlightEnd` events outnumber
`HighlightStart` events — a pop on the empty stack is a silent no-op leaving
the stack empty; by contrast, an out-of-bounds `HighlightStart` index makes
the loop fail (the unchecked lookup). -/
theorem translator_totality (hl_names : List String) (events : List HighlightEvent)
    (st : TranslationState) (h : idxsInBounds hl_names events = true) :
    (processEvents hl_names events st).isSome = true
    ∧ (∀ (m : ByteLineColMapper) (acc : List KakHighlightRange),
        processEvents hl_names [HighlightEvent.HighlightEnd] ⟨[], m, acc⟩
          = some ⟨[], m, acc⟩)
    ∧ processEvents ([] : List String) [HighlightEvent.HighlightStart 0] st = none := by
  refine ⟨?_, fun m acc => rfl, rfl⟩
  obtain ⟨st', h1, -, -⟩ := processEvents_spec hl_names events h st
  simp [h1]

/-- C9 witness: a concrete run whose two leading `HighlightEnd` events exceed
the single `HighlightStart`, completing anyway; an out-of-bounds start index
fails. -/
theorem translator_totality_witness :
    (processEvents ["kw"]
          [HighlightEvent.HighlightEnd, HighlightEvent.HighlightEnd,
            HighlightEvent.HighlightStart 0, HighlightEvent.Source 0 1]
          ⟨[], ByteLineColMapper.new (charIndices "ab"), []⟩).isSome = true
    ∧ processEvents ["kw"] [HighlightEvent.HighlightEnd]
          ⟨[], ByteLineColMapper.new (charIndices "ab"), []⟩
        = some ⟨[], ByteLineColMapper.new (charIndices "ab"), []⟩
    ∧ processEvents ([] : List String) [HighlightEvent.HighlightStart 0]
          ⟨[], ByteLineColMapper.new (charIndices "ab"), []⟩ = none := by
  have h := translator_totality ["kw"]
    [HighlightEvent.HighlightEnd, HighlightEvent.HighlightEnd,
      HighlightEvent.HighlightStart 0, HighlightEvent.Source 0 1]
    ⟨[], ByteLineColMapper.new (charIndices "ab"), []⟩ (by decide)
  exact ⟨h.1, h.2.1 (ByteLineColMapper.new (charIndices "ab")) [], h.2.2⟩

/-! ## Query store (src/kak-tree-sitter/src/tree_sitter/queries.rs) -/

/-- Embedding of `Queries`: up to four optional query-source documents. -/
structure Queries where
  highlights : Option String
  injections : Option String
  locals : Option String
  text_objects : Option String
  deriving Repr, DecidableEq

/-- Embedding of `Queries::load_from_dir`.  `fs::read_to_string(path).ok()` is
modelled by the directory itself: a function from filename to content, `none`
when the file is missing or unreadable.  The four fixed filenames are read
independently and the function is total — no failure of the whole load. -/
def Queries.load_from_dir (dir : String → Option String) : Queries :=
  { highlights := dir "highlights.scm"
    injections := dir "injections.scm"
    locals := dir "locals.scm"
    text_objects := dir "textobjects.scm" }

/-- C10: loading never fails as a whole — each of the four fixed filenames
yields exactly what the directory holds for it, absent files yield `none`,
and a directory containing only `highlights.scm` yields
`highlights = some content` with the other three fields `none`. -/
theorem queries_load_total (dir : String → Option String) (content : String) :
    (Queries.load_from_dir dir).highlights = dir "highlights.scm"
    ∧ (Queries.load_from_dir dir).injections = dir "injections.scm"
    ∧ (Queries.load_from_dir dir).locals = dir "locals.scm"
    ∧ (Queries.load_from_dir dir).text_objects = dir "textobjects.scm"
    ∧ Queries.load_from_dir
        (fun n => if n = "highlights.scm" then some content else none)
      = ⟨some content, none, none, none⟩ := by
  refine ⟨rfl, rfl, rfl, rfl, ?_⟩
  simp only [Queries.load_from_dir]
  norm_num
  refine ⟨fun h => absurd h (by decide), fun h => absurd h (by decide),
    fun h => absurd h (by decide)⟩
